import Mathlib

/-!
Verification of the pinazu flow/task execution runtime, shallowly embedded in
Lean.  The embedded code is `src/python/pinazu-py/src/pinazu/runtime.py`
(TaskRegistry, CacheManager, InMemoryCacheManager, LogManager, FlowRunner)
together with the flow/task decorators of
`src/clients/pinazu-py/src/pinazu/decorators.py`.

Modelling conventions:
- Python argument values are modelled as JSON values without nested objects
  (null, booleans, arbitrary-precision integers, strings, arrays); keyword
  arguments are an association list from names to values.
- `orjson.dumps(input_data, default=str, option=orjson.OPT_SORT_KEYS)` is
  modelled on this domain as compact JSON with the keys of the `input_data`
  dict emitted in sorted order (`args`, `kwargs`, `task_name`), the
  keyword-argument keys sorted, and strings quoted with `"` and `\` escaped.
- The MD5 digest is an arbitrary function parameter `md5`; statements that
  concern collisions quantify over it.
- Exceptions are modelled with `Except`; a Python function that catches every
  exception is modelled by a total function.
-/

/-- JSON-like argument/result values (the domain of task arguments and
results handled by the cache-key serialization). -/
inductive JValue where
  | null
  | bool (b : Bool)
  | num (i : Int)
  | str (s : String)
  | arr (elems : List JValue)

/-- The decimal digit character for `n < 10`. -/
def decDigit : Nat → Char
  | 0 => '0'
  | 1 => '1'
  | 2 => '2'
  | 3 => '3'
  | 4 => '4'
  | 5 => '5'
  | 6 => '6'
  | 7 => '7'
  | 8 => '8'
  | 9 => '9'
  | _ + 10 => '0'

/-- Numeric value of a digit character. -/
def digitVal (c : Char) : Nat := c.toNat - 48

/-- Decimal representation of a natural number, most significant digit
first (the digit string produced by serializing an integer to JSON). -/
def natRepr (n : Nat) : List Char :=
  if h : n < 10 then [decDigit n]
  else natRepr (n / 10) ++ [decDigit (n % 10)]
termination_by n
decreasing_by exact Nat.div_lt_self (by omega) (by omega)

/-- Value of a digit string read back as a natural number. -/
def digitsVal (l : List Char) : Nat := l.foldl (fun a c => 10 * a + digitVal c) 0

/-- The tail that follows a serialized value never starts with a decimal
digit (used to delimit number serializations). -/
def DigitBoundary (t : List Char) : Prop :=
  ∀ c, t.head? = some c → c.isDigit = false

/-- JSON serialization of an integer (decimal, optional leading minus). -/
def serInt (i : Int) : List Char :=
  if i < 0 then '-' :: natRepr (-i).toNat else natRepr i.toNat

/-- JSON escaping of one character (the structural escapes `\"` and `\\`). -/
def escChar (c : Char) : List Char :=
  if c = '"' then ['\\', '"'] else if c = '\\' then ['\\', '\\'] else [c]

/-- JSON escaping of a character sequence. -/
def escBody : List Char → List Char
  | [] => []
  | c :: cs => escChar c ++ escBody cs

/-- JSON serialization of a string (quoted, escaped). -/
def serStr (s : String) : List Char := '"' :: (escBody s.data ++ ['"'])

mutual

/-- JSON serialization of a value, compact, as produced by
`orjson.dumps` on the modelled domain. -/
def serVal : JValue → List Char
  | .null => 'n' :: 'u' :: 'l' :: 'l' :: []
  | .bool true => 't' :: 'r' :: 'u' :: 'e' :: []
  | .bool false => 'f' :: 'a' :: 'l' :: 's' :: 'e' :: []
  | .num i => serInt i
  | .str s => serStr s
  | .arr vs => '[' :: (serElems vs ++ [']'])

/-- Serialization of the elements of a JSON array, comma separated. -/
def serElems : List JValue → List Char
  | [] => []
  | [v] => serVal v
  | v :: vs => serVal v ++ (',' :: serElems vs)

end

/-- Constructor index of a value (used to distinguish serializations by
their first character). -/
def ctorIdx : JValue → Nat
  | .null => 0
  | .bool _ => 1
  | .num _ => 2
  | .str _ => 3
  | .arr _ => 4

/-- Constructor index that a serialization starting with `c` must have. -/
def headKind (c : Char) : Nat :=
  if c = 'n' then 0
  else if c = 't' ∨ c = 'f' then 1
  else if c = '"' then 3
  else if c = '[' then 4
  else 2

/-- Boolean key order on keyword-argument entries (orjson OPT_SORT_KEYS). -/
def kwLe (a b : String × JValue) : Bool := decide (a.1 ≤ b.1)

/-- Keyword arguments in sorted key order (OPT_SORT_KEYS). -/
def sortKw (kwargs : List (String × JValue)) : List (String × JValue) :=
  kwargs.mergeSort kwLe

/-- Serialization of one object field. -/
def serField (f : String × JValue) : List Char := serStr f.1 ++ (':' :: serVal f.2)

/-- Serialization of object fields, comma separated. -/
def serFields : List (String × JValue) → List Char
  | [] => []
  | [f] => serField f
  | f :: fs => serField f ++ (',' :: serFields fs)

/-- Serialization of the kwargs dict with sorted keys. -/
def serKw (kwargs : List (String × JValue)) : List Char :=
  '\x7b' :: (serFields (sortKw kwargs) ++ ['\x7d'])

/-- The canonical serialization of
`input_data = {"task_name": task_name, "args": args, "kwargs": kwargs}`
by `orjson.dumps(input_data, default=str, option=orjson.OPT_SORT_KEYS)`:
compact JSON with the top-level keys in sorted order
(`args` before `kwargs` before `task_name`). -/
def serInput (task_name : String) (args : List JValue)
    (kwargs : List (String × JValue)) : List Char :=
  "\x7b\"args\":[".data ++
    (serElems args ++
      ("],\"kwargs\":".data ++
        (serKw kwargs ++
          (",\"task_name\":".data ++ (serStr task_name ++ ['\x7d'])))))

/-- `CacheManager._generate_cache_key` (S3 backend): MD5 hex digest of the
canonical input serialization, composed into
`result_cache/flow-<id>/tasks/<task>/<hash>.json`.  The digest function is
a parameter. -/
def CacheManager_generate_cache_key (md5 : List Char → String)
    (flow_run_id task_name : String) (args : List JValue)
    (kwargs : List (String × JValue)) : String :=
  "result_cache/flow-" ++ flow_run_id ++ "/tasks/" ++ task_name ++ "/" ++
    md5 (serInput task_name args kwargs) ++ ".json"

/-- `InMemoryCacheManager._generate_cache_key` (volatile backend): same
derivation, composed into `memory_cache/flow-<id>/tasks/<task>/<hash>`. -/
def InMemoryCacheManager_generate_cache_key (md5 : List Char → String)
    (flow_run_id task_name : String) (args : List JValue)
    (kwargs : List (String × JValue)) : String :=
  "memory_cache/flow-" ++ flow_run_id ++ "/tasks/" ++ task_name ++ "/" ++
    md5 (serInput task_name args kwargs)

/-- `FlowStatus` enumeration from `models.py`. -/
inductive FlowStatus where
  | SCHEDULED
  | PENDING
  | RUNNING
  | SUCCESS
  | FAILED
deriving DecidableEq, Repr

/-- `CacheResult` record (`models.py`); the event timestamp is not
modelled.  `cache_key` is the raw cache key stored inside the record. -/
structure CacheResult where
  flow_run_id : String
  task_name : String
  result : JValue
  cache_key : String

/-- Python exceptions that the runtime distinguishes. -/
inductive PyErr where
  | runtimeError (msg : String)
  | taskError (msg : String)
  | userExc (tag : String)
deriving DecidableEq, Repr

/-- A status event as emitted by `LogManager.log_flow_status` /
`log_task_status` (local log record or remote publication; timestamps are
not modelled). -/
inductive EventRec where
  | flowStatusEv (status : FlowStatus)
  | taskStatusEv (task_name : String) (status : FlowStatus)
      (result_cache_key : Option String)
deriving DecidableEq, Repr

/-- The mutable state of one `FlowRunner`, over a cache-backend state `σ`
(`σ` is the in-memory mapping for `InMemoryCacheManager`, and the S3 world
for `CacheManager`).  `events` is the ordered trace of emitted status
events; `bodyRuns` is the ordered trace of task-body executions. -/
structure RunnerState (σ : Type) where
  failed : Bool
  tasks_status : List (String × FlowStatus)
  cacheSt : σ
  events : List EventRec
  bodyRuns : List String
  executorShutdown : Bool

/-- Python dict update `m[k] = v` on an association list. -/
def setStatus (m : List (String × FlowStatus)) (k : String) (v : FlowStatus) :
    List (String × FlowStatus) :=
  match m with
  | [] => [(k, v)]
  | (k2, v2) :: rest =>
      if k2 = k then (k, v) :: rest else (k2, v2) :: setStatus rest k v

/-- `FlowRunner.run_task`, generic over the cache backend
(`get`/`put` are `get_cached_result`/`store_result` of the selected
manager, already specialized to the flow run id).  The `body` argument is
the outcome of `await task_func(*args, **kwargs)`; executing it is recorded
in `bodyRuns`.  Status events are appended by `log_task_status`; note that
the RUNNING transition is only recorded in `tasks_status`, not emitted. -/
def run_task {σ : Type}
    (get : σ → String → List JValue → List (String × JValue) → Option CacheResult)
    (put : σ → String → JValue → List JValue → List (String × JValue) → σ × String)
    (st : RunnerState σ) (task_name : String) (args : List JValue)
    (kwargs : List (String × JValue)) (body : Except PyErr JValue) :
    RunnerState σ × Except PyErr JValue :=
  if st.failed then
    (st, .error (.runtimeError "Flow is in failed state"))
  else
    let s1 := { st with tasks_status := setStatus st.tasks_status task_name .RUNNING }
    match get s1.cacheSt task_name args kwargs with
    | some cached =>
        ({ s1 with
            tasks_status := setStatus s1.tasks_status task_name .SUCCESS,
            events := s1.events ++
              [.taskStatusEv task_name .SUCCESS (some cached.cache_key)] },
          .ok cached.result)
    | none =>
        match body with
        | .ok r =>
            let pr := put s1.cacheSt task_name r args kwargs
            ({ s1 with
                cacheSt := pr.1,
                bodyRuns := s1.bodyRuns ++ [task_name],
                tasks_status := setStatus s1.tasks_status task_name .SUCCESS,
                events := s1.events ++
                  [.taskStatusEv task_name .SUCCESS (some pr.2)] },
              .ok r)
        | .error e =>
            ({ s1 with
                failed := true,
                bodyRuns := s1.bodyRuns ++ [task_name],
                tasks_status := setStatus s1.tasks_status task_name .FAILED,
                events := s1.events ++ [.taskStatusEv task_name .FAILED none] },
              .error e)

/-- The in-memory cache mapping of `InMemoryCacheManager`. -/
abbrev MemSt := List (String × CacheResult)

/-- `InMemoryCacheManager.get_cached_result`. -/
def mem_get (md5 : List Char → String) (flow_run_id : String) :
    MemSt → String → List JValue → List (String × JValue) → Option CacheResult :=
  fun st task_name args kwargs =>
    st.lookup (InMemoryCacheManager_generate_cache_key md5 flow_run_id task_name args kwargs)

/-- `InMemoryCacheManager.store_result`: stores a `CacheResult` whose
`cache_key` field is the derived key and returns that key. -/
def mem_put (md5 : List Char → String) (flow_run_id : String) :
    MemSt → String → JValue → List JValue → List (String × JValue) → MemSt × String :=
  fun st task_name r args kwargs =>
    let k := InMemoryCacheManager_generate_cache_key md5 flow_run_id task_name args kwargs
    ((k, ⟨flow_run_id, task_name, r, k⟩) :: st, k)

/-- `FlowRunner.run_task` with the volatile in-memory backend. -/
def run_task_mem (md5 : List Char → String) (flow_run_id : String)
    (st : RunnerState MemSt) (task_name : String) (args : List JValue)
    (kwargs : List (String × JValue)) (body : Except PyErr JValue) :
    RunnerState MemSt × Except PyErr JValue :=
  run_task (mem_get md5 flow_run_id) (mem_put md5 flow_run_id)
    st task_name args kwargs body

/-- Failure modes of an S3 call other than `NoSuchKey`. -/
inductive S3Err where
  | clientError
  | otherException
deriving DecidableEq, Repr

/-- The state of the S3 backing store visible to `CacheManager`: the stored
objects, plus fault injectors for reads and writes (a `ClientError` other
than `NoSuchKey`, or any other exception). -/
structure S3World where
  objects : List (String × CacheResult)
  getErr : Option S3Err
  putFails : Bool

/-- `CacheManager.get_cached_result`: a missing key raises `NoSuchKey`,
which is treated as a miss; every other `ClientError` and every unexpected
exception is caught, logged and treated as a miss.  The function is total:
no exception escapes to `run_task`. -/
def get_cached_result (md5 : List Char → String) (flow_run_id : String) :
    S3World → String → List JValue → List (String × JValue) → Option CacheResult :=
  fun w task_name args kwargs =>
    let k := CacheManager_generate_cache_key md5 flow_run_id task_name args kwargs
    match w.getErr with
    | some _ => none
    | none => w.objects.lookup k

/-- `CacheManager.store_result`: on success stores a `CacheResult` whose
`cache_key` field is the derived key, and returns the S3 path
`s3://<bucket>/<key>`; any exception is caught, logged, and the empty
sentinel key is returned. -/
def store_result (md5 : List Char → String) (bucket flow_run_id : String) :
    S3World → String → JValue → List JValue → List (String × JValue) → S3World × String :=
  fun w task_name r args kwargs =>
    let k := CacheManager_generate_cache_key md5 flow_run_id task_name args kwargs
    if w.putFails then (w, "")
    else ({ w with objects := (k, ⟨flow_run_id, task_name, r, k⟩) :: w.objects },
      "s3://" ++ bucket ++ "/" ++ k)

/-- `FlowRunner.run_task` with the durable S3 backend. -/
def run_task_s3 (md5 : List Char → String) (bucket flow_run_id : String)
    (st : RunnerState S3World) (task_name : String) (args : List JValue)
    (kwargs : List (String × JValue)) (body : Except PyErr JValue) :
    RunnerState S3World × Except PyErr JValue :=
  run_task (get_cached_result md5 flow_run_id) (store_result md5 bucket flow_run_id)
    st task_name args kwargs body

/-- `FlowRunner.run_flow`: emits flow RUNNING, runs the flow body (an
arbitrary state transformer, normally a sequence of `run_task` calls), on
normal return emits flow SUCCESS if the fuse is still clear, on exception
sets the fuse, emits flow FAILED and re-raises the same exception; the
`finally` block shuts the worker pool down and clears the volatile cache
(`clear` is `clear_cache` for the in-memory backend and the identity for
S3). -/
def run_flow {σ : Type} (clear : σ → σ) (st : RunnerState σ)
    (flow_func : RunnerState σ → RunnerState σ × Except PyErr JValue) :
    RunnerState σ × Except PyErr JValue :=
  let s1 := { st with events := st.events ++ [EventRec.flowStatusEv FlowStatus.RUNNING] }
  match flow_func s1 with
  | (s2, .ok r) =>
      let s3 := if s2.failed then s2
        else { s2 with events := s2.events ++ [EventRec.flowStatusEv FlowStatus.SUCCESS] }
      ({ s3 with executorShutdown := true, cacheSt := clear s3.cacheSt }, .ok r)
  | (s2, .error e) =>
      let s3 : RunnerState σ := { s2 with failed := true }
      let s4 : RunnerState σ :=
        { s3 with events := s3.events ++ [EventRec.flowStatusEv FlowStatus.FAILED] }
      ({ s4 with executorShutdown := true, cacheSt := clear s4.cacheSt }, .error e)

/-- `InMemoryCacheManager.clear_cache`. -/
def clear_cache : MemSt → MemSt := fun _ => []

/-- `run_flow` for a runner constructed with `enable_caching=False`
(volatile backend; the `finally` block clears the cache). -/
def run_flow_mem (st : RunnerState MemSt)
    (flow_func : RunnerState MemSt → RunnerState MemSt × Except PyErr JValue) :
    RunnerState MemSt × Except PyErr JValue :=
  run_flow clear_cache st flow_func

/-- `run_flow` for a runner constructed with `enable_caching=True`
(durable backend; nothing is cleared). -/
def run_flow_s3 (st : RunnerState S3World)
    (flow_func : RunnerState S3World → RunnerState S3World × Except PyErr JValue) :
    RunnerState S3World × Except PyErr JValue :=
  run_flow id st flow_func

/-- One task call inside a flow body. -/
structure TaskCall where
  name : String
  args : List JValue
  kwargs : List (String × JValue)
  body : Except PyErr JValue

/-- A flow body that invokes the given tasks sequentially (the only composition
used by the source flows); an exception from a task aborts the remaining
calls and propagates to `run_flow`. -/
def run_tasks_seq (md5 : List Char → String) (flow_run_id : String) :
    List TaskCall → RunnerState MemSt → RunnerState MemSt × Except PyErr JValue
  | [], s => (s, .ok JValue.null)
  | c :: rest, s =>
      match run_task_mem md5 flow_run_id s c.name c.args c.kwargs c.body with
      | (s2, .ok _) => run_tasks_seq md5 flow_run_id rest s2
      | (s2, .error e) => (s2, .error e)

/-- A fresh `RunnerState` as set up by `FlowRunner.__init__`. -/
def initState {σ : Type} (cache0 : σ) : RunnerState σ :=
  { failed := false, tasks_status := [], cacheSt := cache0, events := [],
    bodyRuns := [], executorShutdown := false }

/-- The active-flow resolution of the `task` decorator
(`decorators.py`): take the most recently registered active flow if any,
otherwise the flow context found by walking the call stack, if any. -/
def resolveFlowContext {α : Type} (activeFlows : List α) (stackCtx : Option α) :
    Option α :=
  match activeFlows.getLast? with
  | some r => some r
  | none => stackCtx

/-- The wrapper produced by the `task` decorator: resolve the owning flow
runner; with no flow context raise `TaskError` before doing anything else;
otherwise dispatch to `run_task` on the resolved runner state. -/
def task_wrapper {σ : Type}
    (get : σ → String → List JValue → List (String × JValue) → Option CacheResult)
    (put : σ → String → JValue → List JValue → List (String × JValue) → σ × String)
    (activeFlows : List (RunnerState σ)) (stackCtx : Option (RunnerState σ))
    (func_name : String) (args : List JValue) (kwargs : List (String × JValue))
    (body : Except PyErr JValue) :
    Except PyErr (RunnerState σ × Except PyErr JValue) :=
  match resolveFlowContext activeFlows stackCtx with
  | none => .error (.taskError
      ("Task " ++ func_name ++ " can only be called within a @flow context"))
  | some ctx => .ok (run_task get put ctx func_name args kwargs body)

/-- Whether an event is a task-level RUNNING status event. -/
def isTaskRunning : EventRec → Bool
  | EventRec.taskStatusEv _ FlowStatus.RUNNING _ => true
  | _ => false

theorem digitVal_decDigit {n : Nat} (h : n < 10) : digitVal (decDigit n) = n := by
  interval_cases n <;> decide

theorem decDigit_isDigit {n : Nat} (h : n < 10) : (decDigit n).isDigit = true := by
  interval_cases n <;> decide

theorem digitsVal_append_digit (l : List Char) (c : Char) :
    digitsVal (l ++ [c]) = 10 * digitsVal l + digitVal c := by
  simp [digitsVal, List.foldl_append]

theorem digitsVal_natRepr (n : Nat) : digitsVal (natRepr n) = n := by
  induction n using Nat.strongRecOn with
  | ind n ih =>
    rw [natRepr]
    split
    · simp only [digitsVal, List.foldl_cons, List.foldl_nil]
      rw [Nat.mul_zero, Nat.zero_add]
      exact digitVal_decDigit (by omega)
    · rw [digitsVal_append_digit,
        ih (n / 10) (Nat.div_lt_self (by omega) (by omega)),
        digitVal_decDigit (Nat.mod_lt _ (by omega))]
      omega

theorem natRepr_inj {n m : Nat} (h : natRepr n = natRepr m) : n = m := by
  have := digitsVal_natRepr n
  rw [h, digitsVal_natRepr] at this
  omega

theorem natRepr_digits (n : Nat) : ∀ c ∈ natRepr n, c.isDigit = true := by
  induction n using Nat.strongRecOn with
  | ind n ih =>
    rw [natRepr]
    split
    · intro c hc
      simp at hc
      subst hc
      exact decDigit_isDigit (by omega)
    · intro c hc
      rcases List.mem_append.mp hc with h1 | h2
      · exact ih (n / 10) (Nat.div_lt_self (by omega) (by omega)) c h1
      · simp at h2
        subst h2
        exact decDigit_isDigit (Nat.mod_lt _ (by omega))

theorem natRepr_head (n : Nat) :
    ∃ c cs, natRepr n = c :: cs ∧ c.isDigit = true := by
  induction n using Nat.strongRecOn with
  | ind n ih =>
    rw [natRepr]
    split
    · exact ⟨decDigit n, [], rfl, decDigit_isDigit (by omega)⟩
    · obtain ⟨c, cs, hcons, hd⟩ := ih (n / 10) (Nat.div_lt_self (by omega) (by omega))
      exact ⟨c, cs ++ [decDigit (n % 10)], by rw [hcons]; rfl, hd⟩

theorem digitBoundary_cons {c : Char} {t : List Char} (h : c.isDigit = false) :
    DigitBoundary (c :: t) := by
  intro d hd
  simp at hd
  subst hd
  exact h

/-- A maximal run of digit characters is determined by the string it starts:
two digit runs followed by non-digit boundaries that concatenate to the same
string are equal. -/
theorem digit_run_inj :
    ∀ (d1 d2 t1 t2 : List Char),
      (∀ c ∈ d1, c.isDigit = true) → (∀ c ∈ d2, c.isDigit = true) →
      DigitBoundary t1 → DigitBoundary t2 →
      d1 ++ t1 = d2 ++ t2 → d1 = d2 ∧ t1 = t2 := by
  intro d1
  induction d1 with
  | nil =>
    intro d2 t1 t2 _ h2 b1 _ he
    cases d2 with
    | nil => simpa using he
    | cons c cs =>
      exfalso
      simp at he
      have hq : t1.head? = some c := by rw [he]; rfl
      have := b1 c hq
      have := h2 c (by simp)
      simp_all
  | cons c cs ih =>
    intro d2 t1 t2 h1 h2 b1 b2 he
    cases d2 with
    | nil =>
      exfalso
      simp at he
      have hq : t2.head? = some c := by rw [← he]; rfl
      have := b2 c hq
      have := h1 c (by simp)
      simp_all
    | cons c2 cs2 =>
      simp only [List.cons_append, List.cons.injEq] at he
      obtain ⟨hc, ht⟩ := he
      subst hc
      obtain ⟨hd, ht2⟩ := ih cs2 t1 t2 (fun x hx => h1 x (by simp [hx]))
        (fun x hx => h2 x (by simp [hx])) b1 b2 ht
      exact ⟨by rw [hd], ht2⟩

theorem serInt_head (i : Int) :
    ∃ c cs, serInt i = c :: cs ∧ (c = '-' ∨ c.isDigit = true) := by
  unfold serInt
  split
  · exact ⟨'-', natRepr (-i).toNat, rfl, Or.inl rfl⟩
  · obtain ⟨c, cs, hcons, hd⟩ := natRepr_head i.toNat
    exact ⟨c, cs, hcons, Or.inr hd⟩

theorem serInt_pre (i j : Int) (t1 t2 : List Char)
    (b1 : DigitBoundary t1) (b2 : DigitBoundary t2)
    (h : serInt i ++ t1 = serInt j ++ t2) : i = j ∧ t1 = t2 := by
  unfold serInt at h
  split at h <;> split at h
  · simp only [List.cons_append, List.cons.injEq] at h
    obtain ⟨hn, ht⟩ := digit_run_inj _ _ _ _ (natRepr_digits _) (natRepr_digits _) b1 b2 h.2
    have := natRepr_inj hn
    exact ⟨by omega, ht⟩
  · exfalso
    obtain ⟨c, cs, hcons, hd⟩ := natRepr_head j.toNat
    rw [hcons] at h
    simp only [List.cons_append, List.cons.injEq] at h
    rw [← h.1] at hd
    simp at hd
  · exfalso
    obtain ⟨c, cs, hcons, hd⟩ := natRepr_head i.toNat
    rw [hcons] at h
    simp only [List.cons_append, List.cons.injEq] at h
    rw [h.1] at hd
    simp at hd
  · obtain ⟨hn, ht⟩ := digit_run_inj _ _ _ _ (natRepr_digits _) (natRepr_digits _) b1 b2 h
    have := natRepr_inj hn
    exact ⟨by omega, ht⟩

theorem escChar_quote : escChar '"' = ['\\', '"'] := rfl

theorem escChar_backslash : escChar '\\' = ['\\', '\\'] := rfl

theorem escChar_other {c : Char} (h1 : c ≠ '"') (h2 : c ≠ '\\') :
    escChar c = [c] := by
  simp [escChar, h1, h2]

/-- The escaped body of a JSON string is delimited by its closing quote:
equal concatenations with a quote-led tail force equal bodies. -/
theorem escBody_pre :
    ∀ (l1 l2 t1 t2 : List Char),
      escBody l1 ++ '"' :: t1 = escBody l2 ++ '"' :: t2 → l1 = l2 ∧ t1 = t2 := by
  intro l1
  induction l1 with
  | nil =>
    intro l2 t1 t2 he
    cases l2 with
    | nil => simpa using he
    | cons c cs =>
      exfalso
      simp only [escBody, List.nil_append, List.append_assoc] at he
      by_cases hq : c = '"'
      · subst hq
        simp [escChar] at he
      · by_cases hb : c = '\\'
        · subst hb
          simp [escChar] at he
        · simp [escChar, hq, hb] at he
          exact hq he.1.symm
  | cons c cs ih =>
    intro l2 t1 t2 he
    cases l2 with
    | nil =>
      exfalso
      simp only [escBody, List.nil_append, List.append_assoc] at he
      by_cases hq : c = '"'
      · subst hq
        simp [escChar] at he
      · by_cases hb : c = '\\'
        · subst hb
          simp [escChar] at he
        · simp [escChar, hq, hb] at he
    | cons c2 cs2 =>
      simp only [escBody, List.append_assoc] at he
      by_cases hq1 : c = '"'
      · subst hq1
        by_cases hq2 : c2 = '"'
        · subst hq2
          simp only [escChar_quote, List.cons_append, List.nil_append,
            List.cons.injEq, true_and] at he
          obtain ⟨h1, h2⟩ := ih cs2 t1 t2 he
          exact ⟨by rw [h1], h2⟩
        · by_cases hb2 : c2 = '\\'
          · subst hb2
            simp only [escChar_quote, escChar_backslash, List.cons_append,
              List.nil_append, List.cons.injEq, true_and] at he
            exact absurd he.1 (by decide)
          · exfalso
            simp only [escChar_quote, escChar_other hq2 hb2, List.cons_append,
              List.singleton_append, List.cons.injEq] at he
            exact hb2 he.1.symm
      · by_cases hb1 : c = '\\'
        · subst hb1
          by_cases hq2 : c2 = '"'
          · subst hq2
            simp only [escChar_quote, escChar_backslash, List.cons_append,
              List.nil_append, List.cons.injEq, true_and] at he
            exact absurd he.1 (by decide)
          · by_cases hb2 : c2 = '\\'
            · subst hb2
              simp only [escChar_backslash, List.cons_append, List.nil_append,
                List.cons.injEq, true_and] at he
              obtain ⟨h1, h2⟩ := ih cs2 t1 t2 he
              exact ⟨by rw [h1], h2⟩
            · exfalso
              simp only [escChar_backslash, escChar_other hq2 hb2,
                List.cons_append, List.singleton_append, List.cons.injEq] at he
              exact hb2 he.1.symm
        · by_cases hq2 : c2 = '"'
          · subst hq2
            exfalso
            simp only [escChar_quote, escChar_other hq1 hb1, List.cons_append,
              List.singleton_append, List.cons.injEq] at he
            exact hb1 he.1
          · by_cases hb2 : c2 = '\\'
            · subst hb2
              exfalso
              simp only [escChar_backslash, escChar_other hq1 hb1,
                List.cons_append, List.singleton_append, List.cons.injEq] at he
              exact hb1 he.1
            · simp only [escChar_other hq1 hb1, escChar_other hq2 hb2,
                List.cons_append, List.singleton_append, List.cons.injEq] at he
              obtain ⟨h1, h2⟩ := ih cs2 t1 t2 he.2
              exact ⟨by rw [he.1, h1], h2⟩

theorem serStr_pre (s1 s2 : String) (t1 t2 : List Char)
    (h : serStr s1 ++ t1 = serStr s2 ++ t2) : s1 = s2 ∧ t1 = t2 := by
  unfold serStr at h
  simp only [List.cons_append, List.append_assoc, List.singleton_append,
    List.cons.injEq, true_and] at h
  obtain ⟨hd, ht⟩ := escBody_pre _ _ _ _ h
  exact ⟨String.ext hd, ht⟩

theorem headKind_digit {c : Char} (h : c.isDigit = true) : headKind c = 2 := by
  unfold headKind
  split_ifs with h1 h2 h3 h4
  · subst h1; simp at h
  · rcases h2 with h2 | h2 <;> (subst h2; simp at h)
  · subst h3; simp at h
  · subst h4; simp at h
  · rfl

theorem list_sizeOf_pos (l : List JValue) : 0 < sizeOf l := by
  cases l <;> simp <;> omega

theorem serVal_head (v : JValue) :
    ∃ c cs, serVal v = c :: cs ∧ headKind c = ctorIdx v ∧ c ≠ ']' ∧ c ≠ ',' := by
  cases v with
  | null => exact ⟨'n', ['u', 'l', 'l'], rfl, by decide, by decide, by decide⟩
  | bool b =>
    cases b
    · exact ⟨'f', ['a', 'l', 's', 'e'], rfl, by decide, by decide, by decide⟩
    · exact ⟨'t', ['r', 'u', 'e'], rfl, by decide, by decide, by decide⟩
  | num i =>
    obtain ⟨c, cs, hc, hd⟩ := serInt_head i
    refine ⟨c, cs, hc, ?_, ?_, ?_⟩
    · rcases hd with h | h
      · subst h; simp [headKind, ctorIdx]
      · rw [headKind_digit h]; simp [ctorIdx]
    · rcases hd with h | h
      · subst h; decide
      · intro heq; subst heq; simp at h
    · rcases hd with h | h
      · subst h; decide
      · intro heq; subst heq; simp at h
  | str s =>
    refine ⟨'"', escBody s.data ++ ['"'], rfl, ?_, by decide, by decide⟩
    simp [headKind, ctorIdx]
  | arr vs =>
    refine ⟨'[', serElems vs ++ [']'], rfl, ?_, by decide, by decide⟩
    simp [headKind, ctorIdx]

theorem jvalue_sizeOf_pos : ∀ v : JValue, 0 < sizeOf v := by
  intro v
  cases v <;> simp <;> omega

/-- Joint prefix-determinism of the serializers, by induction on a size
bound: a serialized value followed by a non-digit boundary, or a serialized
element list followed by its closing bracket, determines the value (list)
and the tail. -/
theorem ser_pre_aux : ∀ n : Nat,
    (∀ v w : JValue, ∀ t1 t2 : List Char, sizeOf v ≤ n →
      DigitBoundary t1 → DigitBoundary t2 →
      serVal v ++ t1 = serVal w ++ t2 → v = w ∧ t1 = t2) ∧
    (∀ vs ws : List JValue, ∀ t1 t2 : List Char, sizeOf vs ≤ n →
      serElems vs ++ (']' :: t1) = serElems ws ++ (']' :: t2) →
      vs = ws ∧ t1 = t2) := by
  intro n
  induction n with
  | zero =>
    constructor
    · intro v _ _ _ hs _ _ _
      have := jvalue_sizeOf_pos v
      omega
    · intro vs _ _ _ hs _
      cases vs <;> simp at hs
  | succ n ih =>
    constructor
    · intro v w t1 t2 hs b1 b2 he
      obtain ⟨cv, rv, hv, hkv, _, _⟩ := serVal_head v
      obtain ⟨cw, rw2, hw, hkw, _, _⟩ := serVal_head w
      have hcc : cv = cw := by
        rw [hv, hw] at he
        simp only [List.cons_append, List.cons.injEq] at he
        exact he.1
      have hctor : ctorIdx v = ctorIdx w := by rw [← hkv, ← hkw, hcc]
      clear hv hw hkv hkw hcc
      cases v <;> cases w <;> simp only [ctorIdx] at hctor <;> try omega
      case null.null =>
        refine ⟨rfl, ?_⟩
        simp only [serVal] at he
        exact List.append_cancel_left he
      case bool.bool b b2 =>
        cases b <;> cases b2 <;> simp only [serVal] at he
        · exact ⟨rfl, List.append_cancel_left he⟩
        · simp at he
        · simp at he
        · exact ⟨rfl, List.append_cancel_left he⟩
      case num.num i j =>
        simp only [serVal] at he
        obtain ⟨h1, h2⟩ := serInt_pre i j t1 t2 b1 b2 he
        exact ⟨by rw [h1], h2⟩
      case str.str s1 s2 =>
        simp only [serVal] at he
        obtain ⟨h1, h2⟩ := serStr_pre s1 s2 t1 t2 he
        exact ⟨by rw [h1], h2⟩
      case arr.arr vs ws =>
        simp only [serVal, List.cons_append, List.append_assoc,
          List.singleton_append, List.cons.injEq, true_and] at he
        have hsz : sizeOf vs ≤ n := by
          simp only [JValue.arr.sizeOf_spec] at hs
          omega
        obtain ⟨h1, h2⟩ := ih.2 vs ws t1 t2 hsz he
        exact ⟨by rw [h1], h2⟩
    · intro vs ws t1 t2 hs he
      cases vs with
      | nil =>
        cases ws with
        | nil =>
          simp only [serElems, List.nil_append, List.cons.injEq, true_and] at he
          exact ⟨rfl, he⟩
        | cons w ws2 =>
          exfalso
          obtain ⟨c, cs, hc, _, hne, _⟩ := serVal_head w
          cases ws2 with
          | nil =>
            simp only [serElems, List.nil_append] at he
            rw [hc] at he
            simp only [List.cons_append, List.cons.injEq] at he
            exact hne he.1.symm
          | cons w2 ws3 =>
            simp only [serElems, List.nil_append, List.append_assoc] at he
            rw [hc] at he
            simp only [List.cons_append, List.cons.injEq] at he
            exact hne he.1.symm
      | cons v vs2 =>
        cases ws with
        | nil =>
          exfalso
          obtain ⟨c, cs, hc, _, hne, _⟩ := serVal_head v
          cases vs2 with
          | nil =>
            simp only [serElems, List.nil_append] at he
            rw [hc] at he
            simp only [List.cons_append, List.cons.injEq] at he
            exact hne he.1
          | cons v2 vs3 =>
            simp only [serElems, List.nil_append, List.append_assoc] at he
            rw [hc] at he
            simp only [List.cons_append, List.cons.injEq] at he
            exact hne he.1
        | cons w ws2 =>
          have hszv : sizeOf v ≤ n := by
            simp only [List.cons.sizeOf_spec] at hs
            have := list_sizeOf_pos vs2
            omega
          cases vs2 with
          | nil =>
            cases ws2 with
            | nil =>
              simp only [serElems] at he
              obtain ⟨h1, h2⟩ := (ih.1) v w (']' :: t1) (']' :: t2) hszv
                (digitBoundary_cons (by decide)) (digitBoundary_cons (by decide)) he
              simp only [List.cons.injEq, true_and] at h2
              exact ⟨by rw [h1], h2⟩
            | cons w2 ws3 =>
              exfalso
              simp only [serElems, List.append_assoc, List.cons_append] at he
              obtain ⟨_, h2⟩ := (ih.1) v w (']' :: t1)
                (',' :: (serElems (w2 :: ws3) ++ ']' :: t2)) hszv
                (digitBoundary_cons (by decide)) (digitBoundary_cons (by decide)) he
              simp at h2
          | cons v2 vs3 =>
            cases ws2 with
            | nil =>
              exfalso
              simp only [serElems, List.append_assoc, List.cons_append] at he
              obtain ⟨_, h2⟩ := (ih.1) v w
                (',' :: (serElems (v2 :: vs3) ++ ']' :: t1)) (']' :: t2) hszv
                (digitBoundary_cons (by decide)) (digitBoundary_cons (by decide)) he
              simp at h2
            | cons w2 ws3 =>
              simp only [serElems, List.append_assoc, List.cons_append] at he
              obtain ⟨h1, h2⟩ := (ih.1) v w
                (',' :: (serElems (v2 :: vs3) ++ ']' :: t1))
                (',' :: (serElems (w2 :: ws3) ++ ']' :: t2)) hszv
                (digitBoundary_cons (by decide)) (digitBoundary_cons (by decide)) he
              simp only [List.cons.injEq, true_and] at h2
              have hsz2 : sizeOf (v2 :: vs3) ≤ n := by
                simp only [List.cons.sizeOf_spec] at hs ⊢
                have := jvalue_sizeOf_pos v
                omega
              obtain ⟨h3, h4⟩ := ih.2 (v2 :: vs3) (w2 :: ws3) t1 t2 hsz2 h2
              exact ⟨by rw [h1, h3], h4⟩

/-- Prefix-determinism of `serVal` with non-digit boundaries. -/
theorem serVal_pre (v w : JValue) (t1 t2 : List Char)
    (b1 : DigitBoundary t1) (b2 : DigitBoundary t2)
    (he : serVal v ++ t1 = serVal w ++ t2) : v = w ∧ t1 = t2 :=
  (ser_pre_aux (sizeOf v)).1 v w t1 t2 le_rfl b1 b2 he

/-- Prefix-determinism of `serElems` delimited by a closing bracket. -/
theorem serElems_pre (vs ws : List JValue) (t1 t2 : List Char)
    (he : serElems vs ++ (']' :: t1) = serElems ws ++ (']' :: t2)) :
    vs = ws ∧ t1 = t2 :=
  (ser_pre_aux (sizeOf vs)).2 vs ws t1 t2 le_rfl he

theorem kwLe_trans : ∀ a b c : String × JValue,
    kwLe a b = true → kwLe b c = true → kwLe a c = true := by
  intro a b c h1 h2
  simp only [kwLe, decide_eq_true_eq] at h1 h2 ⊢
  exact le_trans h1 h2

theorem kwLe_total : ∀ a b : String × JValue, (kwLe a b || kwLe b a) = true := by
  intro a b
  simp only [kwLe, Bool.or_eq_true, decide_eq_true_eq]
  exact le_total a.1 b.1

/-- Sorting keyword arguments is invariant under permutation when the keys
contain no duplicates (the dict semantics of Python kwargs). -/
theorem sortKw_eq_of_perm (kw1 kw2 : List (String × JValue))
    (hp : kw1.Perm kw2) (hn : (kw1.map Prod.fst).Nodup) :
    sortKw kw1 = sortKw kw2 := by
  have hperm : (sortKw kw1).Perm (sortKw kw2) :=
    ((List.mergeSort_perm kw1 kwLe).trans hp).trans (List.mergeSort_perm kw2 kwLe).symm
  have hn2 : (kw2.map Prod.fst).Nodup := ((hp.map Prod.fst).nodup_iff).mp hn
  have hnodup1 : ((sortKw kw1).map Prod.fst).Nodup :=
    (((List.mergeSort_perm kw1 kwLe).map Prod.fst).nodup_iff).mpr hn
  have hnodup2 : ((sortKw kw2).map Prod.fst).Nodup :=
    (((List.mergeSort_perm kw2 kwLe).map Prod.fst).nodup_iff).mpr hn2
  have hs1 : List.Pairwise (fun a b => kwLe a b = true) (sortKw kw1) :=
    List.sorted_mergeSort kwLe_trans kwLe_total kw1
  have hs2 : List.Pairwise (fun a b => kwLe a b = true) (sortKw kw2) :=
    List.sorted_mergeSort kwLe_trans kwLe_total kw2
  have hlt1 : List.Pairwise (fun a b : String × JValue => a.1 < b.1) (sortKw kw1) := by
    have hne : List.Pairwise (fun a b : String × JValue => a.1 ≠ b.1) (sortKw kw1) :=
      List.pairwise_map.mp hnodup1
    exact (hs1.and hne).imp (fun h =>
      lt_of_le_of_ne (by simpa [kwLe, decide_eq_true_eq] using h.1) h.2)
  have hlt2 : List.Pairwise (fun a b : String × JValue => a.1 < b.1) (sortKw kw2) := by
    have hne : List.Pairwise (fun a b : String × JValue => a.1 ≠ b.1) (sortKw kw2) :=
      List.pairwise_map.mp hnodup2
    exact (hs2.and hne).imp (fun h =>
      lt_of_le_of_ne (by simpa [kwLe, decide_eq_true_eq] using h.1) h.2)
  haveI : IsAntisymm (String × JValue) (fun a b => a.1 < b.1) :=
    ⟨fun a b h1 h2 => absurd h2 (not_lt_of_lt h1)⟩
  exact List.eq_of_perm_of_sorted hperm hlt1 hlt2

/-- C1: for every flow run whose failure fuse is already true, any call to
`FlowRunner.run_task` raises the RuntimeError "Flow is in failed state"
immediately: the returned state is exactly the input state, so no cache
access, no status-event emission and no mutation of the per-task status map
happened; this holds for every cache backend (`get`/`put` arbitrary). -/
theorem run_task_fuse_short_circuit {σ : Type}
    (get : σ → String → List JValue → List (String × JValue) → Option CacheResult)
    (put : σ → String → JValue → List JValue → List (String × JValue) → σ × String)
    (st : RunnerState σ) (task_name : String) (args : List JValue)
    (kwargs : List (String × JValue)) (body : Except PyErr JValue)
    (h : st.failed = true) :
    run_task get put st task_name args kwargs body =
      (st, .error (.runtimeError "Flow is in failed state")) := by
  simp [run_task, h]

/-- Witness for C1 at a concrete failed runner state. -/
theorem run_task_fuse_short_circuit_witness :
    ({ initState ([] : MemSt) with failed := true } : RunnerState MemSt).failed = true ∧
    run_task (mem_get (fun _ => "h") "f") (mem_put (fun _ => "h") "f")
      { initState ([] : MemSt) with failed := true } "t" [] [] (.ok JValue.null) =
      ({ initState ([] : MemSt) with failed := true },
        .error (.runtimeError "Flow is in failed state")) :=
  ⟨rfl, run_task_fuse_short_circuit _ _ _ _ _ _ _ rfl⟩

/-- C6: cache I/O failures never propagate out of the cache manager: a read
under any injected S3 error returns a miss (`none`), and a write under an
injected S3 error leaves the store unchanged and returns the empty sentinel
key; both functions are total, so no exception reaches `run_task`. -/
theorem cache_io_errors_degrade :
    (∀ (md5 : List Char → String) (flow_run_id : String) (w : S3World)
        (task_name : String) (args : List JValue)
        (kwargs : List (String × JValue)) (e : S3Err),
      w.getErr = some e →
      get_cached_result md5 flow_run_id w task_name args kwargs = none) ∧
    (∀ (md5 : List Char → String) (bucket flow_run_id : String) (w : S3World)
        (task_name : String) (r : JValue) (args : List JValue)
        (kwargs : List (String × JValue)),
      w.putFails = true →
      store_result md5 bucket flow_run_id w task_name r args kwargs = (w, "")) := by
  constructor
  · intro md5 fid w task_name args kwargs e he
    simp [get_cached_result, he]
  · intro md5 bucket fid w task_name r args kwargs hp
    simp [store_result, hp]

/-- Witness for C6 on a concrete faulty S3 world. -/
theorem cache_io_errors_degrade_witness :
    get_cached_result (fun _ => "h") "f"
      ⟨[], some S3Err.clientError, true⟩ "t" [] [] = none ∧
    store_result (fun _ => "h") "b" "f"
      ⟨[], some S3Err.clientError, true⟩ "t" JValue.null [] [] =
      (⟨[], some S3Err.clientError, true⟩, "") :=
  ⟨cache_io_errors_degrade.1 _ _ _ _ _ _ S3Err.clientError rfl,
   cache_io_errors_degrade.2 _ _ _ _ _ _ _ _ rfl⟩

/-- C7: when the flow body raises, `run_flow` sets the failure fuse, emits
the flow FAILED status event after all events of the body, and re-raises
the very same exception value, unwrapped. -/
theorem run_flow_reraises_original {σ : Type} (clear : σ → σ)
    (st : RunnerState σ)
    (flow_func : RunnerState σ → RunnerState σ × Except PyErr JValue)
    (s2 : RunnerState σ) (e : PyErr)
    (h : flow_func { st with events :=
        st.events ++ [EventRec.flowStatusEv FlowStatus.RUNNING] } = (s2, .error e)) :
    (run_flow clear st flow_func).2 = .error e ∧
    (run_flow clear st flow_func).1.failed = true ∧
    (run_flow clear st flow_func).1.events =
      s2.events ++ [EventRec.flowStatusEv FlowStatus.FAILED] := by
  simp [run_flow, h]

/-- Witness for C7 with a concrete flow body that raises. -/
theorem run_flow_reraises_original_witness :
    (run_flow clear_cache (initState ([] : MemSt))
        (fun s => (s, .error (.userExc "boom")))).2 = .error (.userExc "boom") ∧
    (run_flow clear_cache (initState ([] : MemSt))
        (fun s => (s, .error (.userExc "boom")))).1.failed = true ∧
    (run_flow clear_cache (initState ([] : MemSt))
        (fun s => (s, .error (.userExc "boom")))).1.events =
      ({ initState ([] : MemSt) with events :=
          [EventRec.flowStatusEv FlowStatus.RUNNING] } : RunnerState MemSt).events ++
        [EventRec.flowStatusEv FlowStatus.FAILED] :=
  run_flow_reraises_original clear_cache (initState [])
    (fun s => (s, .error (.userExc "boom")))
    { initState ([] : MemSt) with events := [EventRec.flowStatusEv FlowStatus.RUNNING] }
    (.userExc "boom") rfl

/-- C8: on every exit path of `run_flow` (normal return or exception; status
emission cannot raise, because both `LogManager` modes swallow emission
errors) the worker pool ends up shut down, and with the volatile in-memory
backend the cache mapping ends up empty. -/
theorem run_flow_cleanup_every_path :
    (∀ (st : RunnerState MemSt)
        (flow_func : RunnerState MemSt → RunnerState MemSt × Except PyErr JValue),
      (run_flow_mem st flow_func).1.executorShutdown = true ∧
      (run_flow_mem st flow_func).1.cacheSt = []) ∧
    (∀ (st : RunnerState S3World)
        (flow_func : RunnerState S3World → RunnerState S3World × Except PyErr JValue),
      (run_flow_s3 st flow_func).1.executorShutdown = true) := by
  constructor
  · intro st f
    simp only [run_flow_mem, run_flow]
    rcases hf : f { st with events :=
        st.events ++ [EventRec.flowStatusEv FlowStatus.RUNNING] } with ⟨s2, r⟩
    cases r <;> simp [clear_cache]
  · intro st f
    simp only [run_flow_s3, run_flow]
    rcases hf : f { st with events :=
        st.events ++ [EventRec.flowStatusEv FlowStatus.RUNNING] } with ⟨s2, r⟩
    cases r <;> simp

/-- C9: calling a task-wrapped function with no registered active flow and
no flow context discoverable on the call stack raises `TaskError` at the
call site; no runner state is produced, so no task execution, task-status
registration, cache access or status emission happens. -/
theorem task_outside_flow_errors {σ : Type}
    (get : σ → String → List JValue → List (String × JValue) → Option CacheResult)
    (put : σ → String → JValue → List JValue → List (String × JValue) → σ × String)
    (activeFlows : List (RunnerState σ)) (stackCtx : Option (RunnerState σ))
    (func_name : String) (args : List JValue) (kwargs : List (String × JValue))
    (body : Except PyErr JValue)
    (h1 : activeFlows = []) (h2 : stackCtx = none) :
    task_wrapper get put activeFlows stackCtx func_name args kwargs body =
      .error (.taskError
        ("Task " ++ func_name ++ " can only be called within a @flow context")) := by
  subst h1
  subst h2
  simp [task_wrapper, resolveFlowContext]

/-- Witness for C9 with no active flows and no stack context. -/
theorem task_outside_flow_errors_witness :
    task_wrapper (mem_get (fun _ => "h") "f") (mem_put (fun _ => "h") "f")
      [] none "t" [] [] (.ok JValue.null) =
      .error (.taskError "Task t can only be called within a @flow context") :=
  task_outside_flow_errors _ _ _ _ _ _ _ _ rfl rfl

/-- C2: within one flow run, invoking `run_task` twice with identical
arguments (volatile backend) executes the body at most once: if the first
call succeeds, the second call returns the same result from the cache entry
recorded by the first and appends nothing to the body-execution trace. -/
theorem run_task_idempotent (md5 : List Char → String) (flow_run_id : String)
    (s : RunnerState MemSt) (task_name : String) (args : List JValue)
    (kwargs : List (String × JValue)) (body : Except PyErr JValue) (r : JValue)
    (h0 : s.failed = false)
    (h1 : (run_task_mem md5 flow_run_id s task_name args kwargs body).2 = .ok r) :
    (run_task_mem md5 flow_run_id
        (run_task_mem md5 flow_run_id s task_name args kwargs body).1
        task_name args kwargs body).2 = .ok r ∧
    (run_task_mem md5 flow_run_id
        (run_task_mem md5 flow_run_id s task_name args kwargs body).1
        task_name args kwargs body).1.bodyRuns =
      (run_task_mem md5 flow_run_id s task_name args kwargs body).1.bodyRuns ∧
    ((run_task_mem md5 flow_run_id s task_name args kwargs body).1.bodyRuns =
        s.bodyRuns ∨
      (run_task_mem md5 flow_run_id s task_name args kwargs body).1.bodyRuns =
        s.bodyRuns ++ [task_name]) := by
  rcases hl : List.lookup
      (InMemoryCacheManager_generate_cache_key md5 flow_run_id task_name args kwargs)
      s.cacheSt with _ | cached
  · cases body with
    | ok rb =>
      simp only [run_task_mem, run_task, mem_get, mem_put, h0, hl,
        Bool.false_eq_true, if_false, List.lookup_cons_self] at h1 ⊢
      simp only [Except.ok.injEq] at h1
      subst h1
      exact ⟨rfl, trivial, Or.inr trivial⟩
    | error e =>
      simp only [run_task_mem, run_task, mem_get, mem_put, h0, hl,
        Bool.false_eq_true, if_false] at h1
      exact absurd h1 (by simp)
  · simp only [run_task_mem, run_task, mem_get, mem_put, h0, hl,
      Bool.false_eq_true, if_false] at h1 ⊢
    simp only [Except.ok.injEq] at h1
    subst h1
    exact ⟨rfl, trivial, Or.inl trivial⟩

/-- Witness for C2: a fresh state, an empty cache and a task body returning
a concrete value. -/
theorem run_task_idempotent_witness :
    (run_task_mem (fun _ => "h") "f"
        (run_task_mem (fun _ => "h") "f" (initState []) "t" [] []
          (.ok (JValue.num 7))).1
        "t" [] [] (.ok (JValue.num 7))).2 = .ok (JValue.num 7) ∧
    (run_task_mem (fun _ => "h") "f"
        (run_task_mem (fun _ => "h") "f" (initState []) "t" [] []
          (.ok (JValue.num 7))).1
        "t" [] [] (.ok (JValue.num 7))).1.bodyRuns =
      (run_task_mem (fun _ => "h") "f" (initState []) "t" [] []
        (.ok (JValue.num 7))).1.bodyRuns ∧
    ((run_task_mem (fun _ => "h") "f" (initState []) "t" [] []
        (.ok (JValue.num 7))).1.bodyRuns = (initState ([] : MemSt)).bodyRuns ∨
      (run_task_mem (fun _ => "h") "f" (initState []) "t" [] []
        (.ok (JValue.num 7))).1.bodyRuns = (initState ([] : MemSt)).bodyRuns ++ ["t"]) :=
  run_task_idempotent (fun _ => "h") "f" (initState []) "t" [] []
    (.ok (JValue.num 7)) (JValue.num 7) rfl rfl

/-- C3: cache-key derivation is a pure function of
(flow run id, task name, args, kwargs-as-a-mapping): permuting the
insertion order of a duplicate-free keyword-argument mapping leaves the
derived key unchanged, for both the durable and the volatile backend. -/
theorem generate_cache_key_kwargs_order_invariant
    (md5 : List Char → String) (flow_run_id task_name : String)
    (args : List JValue) (kw1 kw2 : List (String × JValue))
    (hp : kw1.Perm kw2) (hn : (kw1.map Prod.fst).Nodup) :
    CacheManager_generate_cache_key md5 flow_run_id task_name args kw1 =
      CacheManager_generate_cache_key md5 flow_run_id task_name args kw2 ∧
    InMemoryCacheManager_generate_cache_key md5 flow_run_id task_name args kw1 =
      InMemoryCacheManager_generate_cache_key md5 flow_run_id task_name args kw2 := by
  have hser : serInput task_name args kw1 = serInput task_name args kw2 := by
    unfold serInput serKw
    rw [sortKw_eq_of_perm kw1 kw2 hp hn]
  constructor
  · unfold CacheManager_generate_cache_key
    rw [hser]
  · unfold InMemoryCacheManager_generate_cache_key
    rw [hser]

/-- Witness for C3 with a two-key mapping inserted in both orders. -/
theorem generate_cache_key_kwargs_order_invariant_witness :
    CacheManager_generate_cache_key (fun _ => "h") "f" "t" []
        [("b", JValue.num 1), ("a", JValue.num 2)] =
      CacheManager_generate_cache_key (fun _ => "h") "f" "t" []
        [("a", JValue.num 2), ("b", JValue.num 1)] ∧
    InMemoryCacheManager_generate_cache_key (fun _ => "h") "f" "t" []
        [("b", JValue.num 1), ("a", JValue.num 2)] =
      InMemoryCacheManager_generate_cache_key (fun _ => "h") "f" "t" []
        [("a", JValue.num 2), ("b", JValue.num 1)] :=
  generate_cache_key_kwargs_order_invariant (fun _ => "h") "f" "t" [] _ _
    (List.Perm.swap ("a", JValue.num 2) ("b", JValue.num 1) [])
    (by simp)

/-- C4: two invocations of the same task under the same flow run that differ
in a single positional-argument value can only derive the same cache key
through an MD5 collision: the canonical serializations of the two inputs
are different strings, and the digest function maps them to the same
digest. -/
theorem cache_key_collision_only_from_md5
    (md5 : List Char → String) (flow_run_id task_name : String)
    (pre post : List JValue) (v1 v2 : JValue)
    (kwargs : List (String × JValue)) (hne : v1 ≠ v2)
    (hkey : CacheManager_generate_cache_key md5 flow_run_id task_name
        (pre ++ v1 :: post) kwargs =
      CacheManager_generate_cache_key md5 flow_run_id task_name
        (pre ++ v2 :: post) kwargs) :
    serInput task_name (pre ++ v1 :: post) kwargs ≠
      serInput task_name (pre ++ v2 :: post) kwargs ∧
    md5 (serInput task_name (pre ++ v1 :: post) kwargs) =
      md5 (serInput task_name (pre ++ v2 :: post) kwargs) := by
  constructor
  · intro hser
    unfold serInput at hser
    have h1 := List.append_cancel_left hser
    rw [show ("],\"kwargs\":".data : List Char) =
      ']' :: ",\"kwargs\":".data from rfl] at h1
    simp only [List.cons_append] at h1
    obtain ⟨heq, _⟩ := serElems_pre _ _ _ _ h1
    have h2 := List.append_cancel_left heq
    simp only [List.cons.injEq] at h2
    exact hne h2.1
  · unfold CacheManager_generate_cache_key at hkey
    have h2 := congrArg String.data hkey
    simp only [String.data_append] at h2
    have h3 := List.append_cancel_right h2
    have h4 := List.append_cancel_left h3
    exact String.ext h4

/-- Witness for C4: two single-argument inputs differing in that argument,
with a constant digest function (a trivially colliding hash). -/
theorem cache_key_collision_only_from_md5_witness :
    serInput "t" ([] ++ JValue.null :: []) [] ≠
      serInput "t" ([] ++ JValue.bool true :: []) [] ∧
    (fun (_ : List Char) => "h") (serInput "t" ([] ++ JValue.null :: []) []) =
      (fun (_ : List Char) => "h") (serInput "t" ([] ++ JValue.bool true :: []) []) :=
  cache_key_collision_only_from_md5 (fun _ => "h") "f" "t" [] []
    JValue.null (JValue.bool true) [] (fun h => JValue.noConfusion h) rfl

/-- C10: with the durable backend, on a cache miss followed by a successful
store, the SUCCESS event carries the `s3://<bucket>/<key>` path returned by
`store_result`, while a subsequent hit on the entry just stored carries the
raw `result_cache/...` key recorded in the `CacheResult`; the two strings
are always different. -/
theorem s3_success_event_key_differs_on_hit
    (md5 : List Char → String) (bucket flow_run_id : String)
    (s : RunnerState S3World) (task_name : String) (args : List JValue)
    (kwargs : List (String × JValue)) (r : JValue)
    (h0 : s.failed = false)
    (hg : s.cacheSt.getErr = none)
    (hp : s.cacheSt.putFails = false)
    (hmiss : s.cacheSt.objects.lookup
      (CacheManager_generate_cache_key md5 flow_run_id task_name args kwargs) = none) :
    (run_task_s3 md5 bucket flow_run_id s task_name args kwargs (.ok r)).1.events =
      s.events ++ [EventRec.taskStatusEv task_name FlowStatus.SUCCESS
        (some ("s3://" ++ bucket ++ "/" ++
          CacheManager_generate_cache_key md5 flow_run_id task_name args kwargs))] ∧
    (run_task_s3 md5 bucket flow_run_id
        (run_task_s3 md5 bucket flow_run_id s task_name args kwargs (.ok r)).1
        task_name args kwargs (.ok r)).1.events =
      (run_task_s3 md5 bucket flow_run_id s task_name args kwargs (.ok r)).1.events ++
        [EventRec.taskStatusEv task_name FlowStatus.SUCCESS
          (some (CacheManager_generate_cache_key md5 flow_run_id task_name args kwargs))] ∧
    ("s3://" ++ bucket ++ "/" ++
        CacheManager_generate_cache_key md5 flow_run_id task_name args kwargs) ≠
      CacheManager_generate_cache_key md5 flow_run_id task_name args kwargs := by
  refine ⟨?_, ?_, ?_⟩
  · simp only [run_task_s3, run_task, get_cached_result, store_result, h0, hg,
      hp, hmiss, Bool.false_eq_true, if_false]
  · simp only [run_task_s3, run_task, get_cached_result, store_result, h0, hg,
      hp, hmiss, Bool.false_eq_true, if_false, List.lookup_cons_self]
  · intro h
    unfold CacheManager_generate_cache_key at h
    have hd := congrArg String.data h
    simp only [String.data_append] at hd
    simp only [List.cons_append, List.nil_append, List.append_assoc,
      List.cons.injEq] at hd
    exact absurd hd.1 (by decide)

/-- Witness for C10 on a fresh S3 world with no faults. -/
theorem s3_success_event_key_differs_on_hit_witness :
    (run_task_s3 (fun _ => "h") "b" "f" (initState ⟨[], none, false⟩)
        "t" [] [] (.ok (JValue.num 7))).1.events =
      (initState (⟨[], none, false⟩ : S3World)).events ++
        [EventRec.taskStatusEv "t" FlowStatus.SUCCESS
          (some ("s3://" ++ "b" ++ "/" ++
            CacheManager_generate_cache_key (fun _ => "h") "f" "t" [] []))] ∧
    (run_task_s3 (fun _ => "h") "b" "f"
        (run_task_s3 (fun _ => "h") "b" "f" (initState ⟨[], none, false⟩)
          "t" [] [] (.ok (JValue.num 7))).1
        "t" [] [] (.ok (JValue.num 7))).1.events =
      (run_task_s3 (fun _ => "h") "b" "f" (initState ⟨[], none, false⟩)
          "t" [] [] (.ok (JValue.num 7))).1.events ++
        [EventRec.taskStatusEv "t" FlowStatus.SUCCESS
          (some (CacheManager_generate_cache_key (fun _ => "h") "f" "t" [] []))] ∧
    ("s3://" ++ "b" ++ "/" ++
        CacheManager_generate_cache_key (fun _ => "h") "f" "t" [] []) ≠
      CacheManager_generate_cache_key (fun _ => "h") "f" "t" [] [] :=
  s3_success_event_key_differs_on_hit (fun _ => "h") "b" "f"
    (initState ⟨[], none, false⟩) "t" [] [] (JValue.num 7) rfl rfl rfl rfl

/-- Counterexample for C5 as stated: a flow running tasks A then B emits
exactly four status events and none of them is a task-level RUNNING event,
so the emitted sequence is not
`flow:RUNNING, task:A:RUNNING, task:A:SUCCESS, task:B:RUNNING,
task:B:SUCCESS, flow:SUCCESS` (six events, two of them task RUNNING):
`run_task` records RUNNING only in the per-task status map and never emits
it. -/
theorem flow_event_sequence_counterexample :
    ((run_flow_mem (initState []) (run_tasks_seq (fun _ => "h") "f"
        [⟨"A", [], [], .ok (JValue.num 1)⟩,
         ⟨"B", [], [], .ok (JValue.num 2)⟩])).1.events.length = 4) ∧
    ((run_flow_mem (initState []) (run_tasks_seq (fun _ => "h") "f"
        [⟨"A", [], [], .ok (JValue.num 1)⟩,
         ⟨"B", [], [], .ok (JValue.num 2)⟩])).1.events.all
      (fun ev => !(isTaskRunning ev)) = true) := by
  decide

/-- C5 (amended): for a flow executing tasks A then B on fresh state, the
emitted status-event sequence is exactly
`flow:RUNNING, task:A:SUCCESS, task:B:SUCCESS, flow:SUCCESS`, and when B
raises it is `flow:RUNNING, task:A:SUCCESS, task:B:FAILED, flow:FAILED`;
no task RUNNING event is emitted (that transition is only recorded in the
per-task status map), the flow RUNNING event precedes all task events, and
the flow terminal event follows all task events. -/
theorem flow_event_sequence (md5 : List Char → String) (flow_run_id A B : String)
    (argsA argsB : List JValue) (kwA kwB : List (String × JValue))
    (rA rB : JValue) (e : PyErr)
    (hAB : InMemoryCacheManager_generate_cache_key md5 flow_run_id B argsB kwB ≠
      InMemoryCacheManager_generate_cache_key md5 flow_run_id A argsA kwA) :
    (run_flow_mem (initState []) (run_tasks_seq md5 flow_run_id
        [⟨A, argsA, kwA, .ok rA⟩, ⟨B, argsB, kwB, .ok rB⟩])).1.events =
      [EventRec.flowStatusEv FlowStatus.RUNNING,
       EventRec.taskStatusEv A FlowStatus.SUCCESS
         (some (InMemoryCacheManager_generate_cache_key md5 flow_run_id A argsA kwA)),
       EventRec.taskStatusEv B FlowStatus.SUCCESS
         (some (InMemoryCacheManager_generate_cache_key md5 flow_run_id B argsB kwB)),
       EventRec.flowStatusEv FlowStatus.SUCCESS] ∧
    (run_flow_mem (initState []) (run_tasks_seq md5 flow_run_id
        [⟨A, argsA, kwA, .ok rA⟩, ⟨B, argsB, kwB, .error e⟩])).1.events =
      [EventRec.flowStatusEv FlowStatus.RUNNING,
       EventRec.taskStatusEv A FlowStatus.SUCCESS
         (some (InMemoryCacheManager_generate_cache_key md5 flow_run_id A argsA kwA)),
       EventRec.taskStatusEv B FlowStatus.FAILED none,
       EventRec.flowStatusEv FlowStatus.FAILED] := by
  have hbeq : (InMemoryCacheManager_generate_cache_key md5 flow_run_id B argsB kwB ==
      InMemoryCacheManager_generate_cache_key md5 flow_run_id A argsA kwA) = false :=
    beq_eq_false_iff_ne.mpr hAB
  constructor
  · simp [run_flow_mem, run_flow, run_tasks_seq, run_task_mem, run_task,
      mem_get, mem_put, initState, List.lookup, hbeq]
  · simp [run_flow_mem, run_flow, run_tasks_seq, run_task_mem, run_task,
      mem_get, mem_put, initState, List.lookup, hbeq]

/-- Witness for the amended C5 at concrete tasks A and B. -/
theorem flow_event_sequence_witness :
    (run_flow_mem (initState []) (run_tasks_seq (fun _ => "h") "f"
        [⟨"A", [], [], .ok (JValue.num 1)⟩,
         ⟨"B", [], [], .ok (JValue.num 2)⟩])).1.events =
      [EventRec.flowStatusEv FlowStatus.RUNNING,
       EventRec.taskStatusEv "A" FlowStatus.SUCCESS
         (some (InMemoryCacheManager_generate_cache_key (fun _ => "h") "f" "A" [] [])),
       EventRec.taskStatusEv "B" FlowStatus.SUCCESS
         (some (InMemoryCacheManager_generate_cache_key (fun _ => "h") "f" "B" [] [])),
       EventRec.flowStatusEv FlowStatus.SUCCESS] ∧
    (run_flow_mem (initState []) (run_tasks_seq (fun _ => "h") "f"
        [⟨"A", [], [], .ok (JValue.num 1)⟩,
         ⟨"B", [], [], .error (.userExc "boom")⟩])).1.events =
      [EventRec.flowStatusEv FlowStatus.RUNNING,
       EventRec.taskStatusEv "A" FlowStatus.SUCCESS
         (some (InMemoryCacheManager_generate_cache_key (fun _ => "h") "f" "A" [] [])),
       EventRec.taskStatusEv "B" FlowStatus.FAILED none,
       EventRec.flowStatusEv FlowStatus.FAILED] :=
  flow_event_sequence (fun _ => "h") "f" "A" "B" [] [] [] []
    (JValue.num 1) (JValue.num 2) (.userExc "boom") (by decide)
